import Mathlib

/-
Verification of the parser context of rajikaimal/walt
(src/packages/walt-compiler/src/parser/context.js).

The JavaScript class `Context` is embedded shallowly:
  * `this.token` (nullable) becomes `Option Token`;
  * the mutable cursor becomes explicit state passing: every method that
    mutates `this` returns the new `Context`;
  * AST nodes, which are duck-typed JavaScript objects built by spreads,
    become association lists `List (String × Val)` with a last-entry-wins
    lookup `oget` (exactly the observable semantics of object spread, where
    a later entry overrides an earlier one);
  * a thrown exception becomes an `Except`/`Option` error value.  A
    `TypeError` arising from a property access on a missing (null) token is
    modelled as `JsErr.typeErr` / `none`.
-/

namespace Walt

/-- Source position carried by a token: line index, column, and the full
source line text used for snippet rendering (see `start.sourceLine` in
`endNode`). -/
structure Pos where
  line : Nat
  col : Nat
  sourceLine : String
deriving DecidableEq

/-- A lexical token: `value`, `type` and `start` are the fields the context
reads (flow type `TokenType`). -/
structure Token where
  value : String
  type : String
  start : Pos
deriving DecidableEq

/-- Modelled from the spec: the external token-stream collaborator
(`../utils/token-stream`, not part of this repository slice).  It exposes
`next()` (advances and returns the next token, end of input modelled as
`none`) and `last()` (most recently produced token, without advancing). -/
structure TokenStream where
  upcoming : List Token
  lastProduced : Option Token
deriving DecidableEq

/-- Modelled from the spec: `next()` advances and returns the next token;
when the stream is exhausted it keeps yielding the end-of-input sentinel
(`none`). -/
def TokenStream.next : TokenStream → Option Token × TokenStream
  | ⟨t :: ts, _⟩ => (some t, ⟨ts, some t⟩)
  | ⟨[], l⟩ => (none, ⟨[], l⟩)

/-- Modelled from the spec: `last()` returns the most recently produced
token without advancing. -/
def TokenStream.last (s : TokenStream) : Option Token := s.lastProduced

/-- The parser context: one current token (nullable), the stream, a
`filename` field that is declared but never assigned by this core, and the
source lines. -/
structure Context where
  token : Option Token
  stream : TokenStream
  filename : Option String
  lines : List String
deriving DecidableEq

/-- The constructor: assigns `token`, `stream` and `lines`; `filename` is
left unassigned (undefined, modelled as `none`). -/
def mkContext (stream : TokenStream) (token : Option Token) (lines : List String) : Context :=
  ⟨token, stream, none, lines⟩

/-- JavaScript `a || d` on a possibly-undefined string: undefined and the
empty string are falsy. -/
def jsOrS : Option String → String → String
  | none, d => d
  | some s, d => if s = "" then d else s

/-- JavaScript `String(x)` on a possibly-undefined string argument. -/
def jsStringOfOpt : Option String → String
  | some s => s
  | none => "undefined"

/-- Renders the token position inside an error string. -/
def posRender : Option Token → String
  | some t => Nat.repr t.start.line ++ ":" ++ Nat.repr t.start.col
  | none => "unknown"

/-- Modelled from the spec: the external error-string-generation
collaborator `generateErrorString` (`../utils/generate-error`, not part of
this repository slice).  The spec fixes only its signature
`(message, detail, token, filename, functionId) → string` and that it
composes a uniform, position-annotated message from those five arguments;
we model it as their concatenation. -/
def generateErrorString (msg : String) (detail : String) (token : Option Token)
    (filename : String) (functionId : String) : String :=
  msg ++ " " ++ detail ++ " at " ++ posRender token ++ " in " ++ filename ++ ":" ++ functionId

/-- The value wrapped by `new SyntaxError(...)`: only its message is
observable here. -/
structure SyntaxErr where
  message : String
deriving DecidableEq

/-- A thrown JavaScript exception: either a thrown `SyntaxError` value or a
`TypeError` from a property access on the missing (null) current token. -/
inductive JsErr where
  | syn (e : SyntaxErr)
  | typeErr
deriving DecidableEq

/-- `syntaxError(msg, error)`: builds (returns, does not throw) a
`SyntaxError` from the message, `error || ""`, the current token,
`this.filename || "unknown"` and the fixed `functionId = "unknown"`. -/
def Context.syntaxError (ctx : Context) (msg : String) (error : Option String) : SyntaxErr :=
  ⟨generateErrorString msg (jsOrS error "") ctx.token (jsOrS ctx.filename "unknown") "unknown"⟩

/-- `unexpectedValue(value)`: the callers in this slice always pass the
array form of the `string[] | string` union; JavaScript renders it as
`String(value)`, a comma-join. -/
def Context.unexpectedValue (ctx : Context) (value : List String) : SyntaxErr :=
  ctx.syntaxError ("Expected: " ++ String.intercalate "," value) (some "Unexpected value")

/-- `unexpected(token)`: reads `this.token.type` unguarded, so with no
current token it throws a `TypeError` (modelled as `none`) instead of
returning a value. -/
def Context.unexpected (ctx : Context) (tk : Option String) : Option SyntaxErr :=
  match ctx.token with
  | some cur =>
    some (ctx.syntaxError ("Expected: " ++ jsStringOfOpt tk) (some ("Unexpected token " ++ cur.type)))
  | none => none

/-- `unknown({ value })`: the parameter is destructured to its `value`
field. -/
def Context.unknown (ctx : Context) (value : String) : SyntaxErr :=
  ctx.syntaxError "Unknown token" (some value)

/-- `unsupported()`: reads `this.token.value` unguarded, so with no current
token it throws a `TypeError` (modelled as `none`). -/
def Context.unsupported (ctx : Context) : Option SyntaxErr :=
  match ctx.token with
  | some cur => some (ctx.syntaxError "Language feature not supported" (some cur.value))
  | none => none

/-- `next()`: replaces the current token with the stream's next token. -/
def Context.next (ctx : Context) : Context :=
  { ctx with token := ctx.stream.next.1, stream := ctx.stream.next.2 }

/-- `eat(value, type)`: returns `false` when there is no current token;
with a non-null `value` (a JavaScript array, truthy even when empty) it
advances iff the current token's value is contained in it; with `value`
null it advances iff `this.token.type === type`. -/
def Context.eat (ctx : Context) (value : Option (List String)) (ty : Option String) :
    Bool × Context :=
  match ctx.token with
  | none => (false, ctx)
  | some tok =>
    match value with
    | some vs => if vs.contains tok.value then (true, ctx.next) else (false, ctx)
    | none => if ty = some tok.type then (true, ctx.next) else (false, ctx)

/-- `expect(value, type)`: saves the current token, calls `eat`; on success
returns the saved token, on failure throws `unexpectedValue(value)` when
`value` is non-null (JavaScript arrays are truthy) and `unexpected(type)`
otherwise — the latter itself throws a `TypeError` when there is no current
token.  The resulting context is paired with the outcome. -/
def Context.expect (ctx : Context) (value : Option (List String)) (ty : Option String) :
    Except JsErr (Option Token) × Context :=
  let token := ctx.token
  let r := ctx.eat value ty
  if r.1 then
    (Except.ok token, r.2)
  else
    (Except.error (match value with
      | some vs => JsErr.syn (r.2.unexpectedValue vs)
      | none =>
        match r.2.unexpected ty with
        | some e => JsErr.syn e
        | none => JsErr.typeErr), r.2)

/-- Values stored in the duck-typed AST node objects. -/
inductive Val where
  | undef
  | null
  | str (s : String)
  | pos (p : Pos)
  | arr (vs : List Val)
  | obj (fields : List (String × Val))
  | closure (captured : List Val)

/-- A JavaScript object as an entry list; a later entry overrides an
earlier one, exactly as in `\x7b ...a, ...b \x7d` spreads. -/
abbrev Obj := List (String × Val)

/-- Property lookup with last-entry-wins semantics (object spread). -/
def oget : Obj → String → Option Val
  | [], _ => none
  | (k0, v0) :: rest, k =>
    match oget rest k with
    | some v => some v
    | none => if k0 = k then some v0 else none

/-- `startNode(token = this.token || \x7b\x7d)`: opens a node from the given
seed token, else the current token, else the empty object (whose `value`
and `start` read as undefined). -/
def Context.startNode (ctx : Context) (seedArg : Option Token) : Obj :=
  match seedArg.orElse fun _ => ctx.token with
  | some t =>
    [("Type", Val.str ""), ("value", Val.str t.value), ("range", Val.arr [Val.pos t.start]),
     ("meta", Val.obj []), ("params", Val.arr []), ("type", Val.null)]
  | none =>
    [("Type", Val.str ""), ("value", Val.undef), ("range", Val.arr [Val.undef]),
     ("meta", Val.obj []), ("params", Val.arr []), ("type", Val.null)]

/-- `(this.token || this.stream.last() || \x7b\x7d).start`: the end position
appended by `endNode`; reading `start` of the empty object yields
undefined. -/
def endStartVal (ctx : Context) : Val :=
  match ctx.token with
  | some t => Val.pos t.start
  | none =>
    match ctx.stream.last with
    | some t => Val.pos t.start
    | none => Val.undef

/-- `endNode(base, Type)`: computes `range = base.range.concat(token.start)`
(fails with a `TypeError`, modelled as `none`, when `base.range` is not an
array), destructures `toString` out of `base`, and builds the fresh object
with the new `toString` closure (capturing the final range), the remaining
base entries, and `Type`/`range` last so that they override any base
entries. -/
def Context.endNode (ctx : Context) (base : Obj) (T : String) : Option Obj :=
  match oget base "range" with
  | some (Val.arr vs) =>
    some (("toString", Val.closure (vs ++ [endStartVal ctx])) ::
      (base.filter fun p => p.1 != "toString") ++
      [("Type", Val.str T), ("range", Val.arr (vs ++ [endStartVal ctx]))])
  | _ => none

/-- `makeNode(node, T)`: merges the caller's fields over a freshly started
node (caller fields win) and immediately ends it. -/
def Context.makeNode (ctx : Context) (node : Obj) (T : String) : Option Obj :=
  ctx.endNode (ctx.startNode none ++ node) T

/-- Chronological order on source positions: an earlier line, or the same
line and an earlier-or-equal column. -/
def Pos.chronLE (p q : Pos) : Prop :=
  p.line < q.line ∨ (p.line = q.line ∧ p.col ≤ q.col)

instance (p q : Pos) : Decidable (Pos.chronLE p q) := by
  unfold Pos.chronLE
  exact inferInstance

/-! ### A store-instrumented view of `endNode` for the frame property

`base.range.concat(token.start)` calls `Array.prototype.concat`, which
allocates a fresh array and leaves its receiver untouched (unlike `push`).
To state that as a theorem we instrument the node's range array with an
explicit store of arrays addressed by reference. -/

/-- A store of JavaScript arrays, addressed by allocation index. -/
abbrev ArrStore := List (List Val)

/-- Dereference an array in the store. -/
def getArr (s : ArrStore) (r : Nat) : List Val := s.getD r []

/-- Allocate a fresh array, returning its reference. -/
def allocArr (s : ArrStore) (a : List Val) : Nat × ArrStore := (s.length, s ++ [a])

/-- `endNode` with the range array held by reference in a store: the same
computation as `Context.endNode`, with `concat` made explicit as the
allocation of a fresh array holding `getArr s baseRange ++ [end]`.  Returns
the fields of the fresh node, the reference of its new range array, and the
updated store. -/
def Context.endNodeAlloc (ctx : Context) (s : ArrStore) (baseFields : Obj) (baseRange : Nat)
    (T : String) : (Obj × Nat) × ArrStore :=
  let rng := getArr s baseRange ++ [endStartVal ctx]
  let ra := allocArr s rng
  ((("toString", Val.closure rng) :: (baseFields.filter fun p => p.1 != "toString") ++
    [("Type", Val.str T)], ra.1), ra.2)

/-! ### Concrete inputs used by counterexamples and witnesses -/

/-- Position of `"let"` in the sample line `"let x = 5;"`. -/
def posLet : Pos := ⟨0, 0, "let x = 5;"⟩

/-- Position of `"x"` in the sample line. -/
def posX : Pos := ⟨0, 4, "let x = 5;"⟩

/-- The `"let"` keyword token. -/
def tokLet : Token := ⟨"let", "Keyword", posLet⟩

/-- The `"x"` identifier token. -/
def tokX : Token := ⟨"x", "Identifier", posX⟩

/-- A `"+"` operator token. -/
def tokPlus : Token := ⟨"+", "Operator", ⟨0, 0, "+"⟩⟩

/-- A context whose current token is `"let"`, with `"x"` upcoming. -/
def ctxLet : Context := mkContext ⟨[tokX], none⟩ (some tokLet) ["let x = 5;"]

/-- A context whose current token is `"x"`. -/
def ctxX : Context := mkContext ⟨[], some tokX⟩ (some tokX) ["let x = 5;"]

/-- A context whose current token is the `"+"` operator. -/
def ctxPlus : Context := mkContext ⟨[], none⟩ (some tokPlus) ["+"]

/-- A context with no current token (exhausted stream). -/
def ctxNone : Context := mkContext ⟨[], some tokX⟩ none ["let x = 5;"]

/-- A caller object carrying a `toString` key, fed to `makeNode`. -/
def nodeBoom : Obj := [("toString", Val.str "boom")]

/-- A one-array store holding the range of an open node. -/
def store1 : ArrStore := [[Val.pos posLet]]

/-! ### Helper lemmas -/

theorem eat_false_state (ctx : Context) (value : Option (List String)) (ty : Option String)
    (h : (ctx.eat value ty).1 = false) : (ctx.eat value ty).2 = ctx := by
  unfold Context.eat at h ⊢
  cases htok : ctx.token with
  | none => simp [htok]
  | some tok =>
    cases value with
    | some vs =>
      simp only [htok] at h ⊢
      by_cases hc : tok.value ∈ vs
      · simp [hc] at h
      · simp [hc]
    | none =>
      simp only [htok] at h ⊢
      by_cases hc : ty = some tok.type
      · simp [hc] at h
      · simp [hc]

theorem eat_true_state (ctx : Context) (value : Option (List String)) (ty : Option String)
    (h : (ctx.eat value ty).1 = true) : (ctx.eat value ty).2 = ctx.next := by
  unfold Context.eat at h ⊢
  cases htok : ctx.token with
  | none => simp [htok] at h
  | some tok =>
    cases value with
    | some vs =>
      simp only [htok] at h ⊢
      by_cases hc : tok.value ∈ vs
      · simp [hc]
      · simp [hc] at h
    | none =>
      simp only [htok] at h ⊢
      by_cases hc : ty = some tok.type
      · simp [hc]
      · simp [hc] at h

theorem eat_true_iff (ctx : Context) (value : Option (List String)) (ty : Option String) :
    (ctx.eat value ty).1 = true ↔
      ∃ t, ctx.token = some t ∧
        (match value with
         | some vs => t.value ∈ vs
         | none => ty = some t.type) := by
  unfold Context.eat
  cases htok : ctx.token with
  | none => simp [htok]
  | some tok =>
    cases value with
    | some vs =>
      by_cases hc : tok.value ∈ vs
      · simp [htok, hc]
      · simp [htok, hc]
    | none =>
      by_cases hc : ty = some tok.type
      · simp [htok, hc]
      · simp [htok, hc]

/-! ### Claim theorems -/

/-- C1: `eat(value, type)` advances the cursor (replaces the token with
`stream.next()`) iff the pre-call current token matches — value membership
when `value` is non-null, type equality when `value` is null; on a mismatch
it returns `false` without advancing, and it returns `false` (never
throws) when there is no current token. -/
theorem eat_matches_iff_advances (ctx : Context) (value : Option (List String))
    (ty : Option String) :
    ((ctx.eat value ty).1 = true ↔
      ∃ t, ctx.token = some t ∧
        (match value with
         | some vs => t.value ∈ vs
         | none => ty = some t.type)) ∧
    ((ctx.eat value ty).1 = true → (ctx.eat value ty).2 = ctx.next) ∧
    ((ctx.eat value ty).1 = false → (ctx.eat value ty).2 = ctx) ∧
    (ctx.token = none → ctx.eat value ty = (false, ctx)) := by
  refine ⟨eat_true_iff ctx value ty, eat_true_state ctx value ty,
    eat_false_state ctx value ty, fun h => ?_⟩
  unfold Context.eat
  simp [h]

/-- Witness for C1 at concrete inputs: matching advances past `"let"`, and
an exhausted context returns `false` unchanged. -/
theorem eat_matches_iff_advances_witness :
    (ctxLet.eat (some ["let"]) none).2 = ctxLet.next ∧ ctxNone.eat (some ["let"]) none = (false, ctxNone) :=
  ⟨(eat_matches_iff_advances ctxLet (some ["let"]) none).2.1 (by decide),
   (eat_matches_iff_advances ctxNone (some ["let"]) none).2.2.2 rfl⟩

/-- C2 counterexample: with no current token, `expect(null, "Identifier")`
raises a TypeError (thrown while `unexpected` reads `this.token.type` of
the missing token), not the descriptive unexpected-token syntax error the
claim requires on every failure. -/
theorem expect_typeerror_cex :
    (ctxNone.expect none (some "Identifier")).1 = Except.error JsErr.typeErr := rfl

/-- C2 (amended): `expect(value, type)` behaves exactly as `eat(value, type)`
followed by: on success, return the token that was current before the
advance; on failure, leave the state unchanged and raise the
unexpected-value error naming the expected value set when `value` was
given, otherwise the unexpected-token error naming the expected type when a
current token exists — and a TypeError (from reading the missing token's
type) when there is none. -/
theorem expect_eat_equivalence (ctx : Context) (value : Option (List String))
    (ty : Option String) :
    ((ctx.eat value ty).1 = true →
      ctx.expect value ty = (Except.ok ctx.token, (ctx.eat value ty).2)) ∧
    ((ctx.eat value ty).1 = false →
      (ctx.expect value ty).2 = ctx ∧
      (∀ vs, value = some vs →
        (ctx.expect value ty).1 = Except.error (JsErr.syn (ctx.unexpectedValue vs))) ∧
      (value = none → ∀ cur, ctx.token = some cur →
        ∃ e, ctx.unexpected ty = some e ∧
          (ctx.expect value ty).1 = Except.error (JsErr.syn e)) ∧
      (value = none → ctx.token = none →
        (ctx.expect value ty).1 = Except.error JsErr.typeErr)) := by
  constructor
  · intro h
    simp [Context.expect, h]
  · intro h
    have hst := eat_false_state ctx value ty h
    refine ⟨by simp [Context.expect, h, hst], ?_, ?_, ?_⟩
    · rintro vs rfl
      simp [Context.expect, h, hst]
    · rintro rfl cur hcur
      exact ⟨ctx.syntaxError ("Expected: " ++ jsStringOfOpt ty)
          (some ("Unexpected token " ++ cur.type)),
        by simp [Context.unexpected, hcur],
        by simp [Context.expect, h, hst, Context.unexpected, hcur]⟩
    · rintro rfl htok
      simp [Context.expect, h, hst, Context.unexpected, htok]

/-- Witness for C2 at concrete inputs: a matching `expect` returns the
consumed `"let"` token and advances, and a mismatching one raises the
unexpected-value error. -/
theorem expect_eat_equivalence_witness :
    ctxLet.expect (some ["let"]) none = (Except.ok (some tokLet), ctxLet.next) ∧
    (ctxPlus.expect (some ["let"]) none).1 =
      Except.error (JsErr.syn (ctxPlus.unexpectedValue ["let"])) :=
  ⟨(expect_eat_equivalence ctxLet (some ["let"]) none).1 (by decide),
   ((expect_eat_equivalence ctxPlus (some ["let"]) none).2 (by decide)).2.1 ["let"] rfl⟩

/-- C7 counterexample: with no current token, `unsupported()` (and likewise
`unexpected`) throws a TypeError while reading a property of the missing
token instead of returning a syntax-error value. -/
theorem diagnostics_crash_cex :
    ctxNone.unsupported = none ∧ ctxNone.unexpected (some "Identifier") = none :=
  ⟨rfl, rfl⟩

/-- C7 (amended): every diagnostic constructor builds and returns its
syntax-error value without raising it, except that `unexpected` and
`unsupported` fail with a TypeError when no current token exists; among the
public operations only `expect` raises, and it raises exactly when `eat`
fails — `eat` itself never raises (it is total, returning a boolean and
the successor state). -/
theorem diagnostics_return_only_expect_raises (ctx : Context)
    (value : Option (List String)) (ty : Option String) (vs : List String) (s : String) :
    ctx.unexpectedValue vs =
      ctx.syntaxError ("Expected: " ++ String.intercalate "," vs) (some "Unexpected value") ∧
    ctx.unknown s = ctx.syntaxError "Unknown token" (some s) ∧
    (∀ cur, ctx.token = some cur →
      ctx.unexpected ty = some (ctx.syntaxError ("Expected: " ++ jsStringOfOpt ty)
          (some ("Unexpected token " ++ cur.type))) ∧
      ctx.unsupported = some (ctx.syntaxError "Language feature not supported" (some cur.value))) ∧
    (ctx.token = none → ctx.unexpected ty = none ∧ ctx.unsupported = none) ∧
    ((∃ e, (ctx.expect value ty).1 = Except.error e) ↔ (ctx.eat value ty).1 = false) := by
  refine ⟨rfl, rfl, ?_, ?_, ?_⟩
  · intro cur hcur
    exact ⟨by simp [Context.unexpected, hcur], by simp [Context.unsupported, hcur]⟩
  · intro htok
    exact ⟨by simp [Context.unexpected, htok], by simp [Context.unsupported, htok]⟩
  · constructor
    · rintro ⟨e, he⟩
      by_cases hb : (ctx.eat value ty).1 = true
      · simp [Context.expect, hb] at he
      · simpa using hb
    · intro hb
      have hfst : (ctx.expect value ty).1 = Except.error (match value with
          | some vs => JsErr.syn ((ctx.eat value ty).2.unexpectedValue vs)
          | none =>
            match (ctx.eat value ty).2.unexpected ty with
            | some e => JsErr.syn e
            | none => JsErr.typeErr) := by
        simp [Context.expect, hb]
        cases value <;> rfl
      exact ⟨_, hfst⟩

/-- Witness for C7 at a concrete input: with the `"+"` operator current,
`unexpected` returns (without raising) the composed unexpected-token
value. -/
theorem diagnostics_return_only_expect_raises_witness :
    ctxPlus.unexpected (some "Identifier") =
      some (ctxPlus.syntaxError ("Expected: " ++ jsStringOfOpt (some "Identifier"))
        (some ("Unexpected token " ++ tokPlus.type))) :=
  ((diagnostics_return_only_expect_raises ctxPlus none (some "Identifier") [] "").2.2.1 tokPlus rfl).1

/-- C9: whenever `expect` fails (raises), the context's current token is
unchanged: the error path never advances the cursor. -/
theorem expect_failure_preserves_token (ctx : Context) (value : Option (List String))
    (ty : Option String) (e : JsErr) (h : (ctx.expect value ty).1 = Except.error e) :
    (ctx.expect value ty).2.token = ctx.token := by
  by_cases hb : (ctx.eat value ty).1 = true
  · simp [Context.expect, hb] at h
  · have hb' : (ctx.eat value ty).1 = false := by simpa using hb
    have hst := eat_false_state ctx value ty hb'
    simp [Context.expect, hb', hst]

/-- Witness for C9 at a concrete input: the TypeError failure path leaves
the (absent) current token in place. -/
theorem expect_failure_preserves_token_witness :
    (ctxNone.expect none (some "Identifier")).2.token = ctxNone.token :=
  expect_failure_preserves_token ctxNone none (some "Identifier") JsErr.typeErr rfl

theorem oget_nil (k : String) : oget [] k = none := rfl

theorem oget_cons (k0 : String) (v0 : Val) (l : Obj) (k : String) :
    oget ((k0, v0) :: l) k =
      match oget l k with
      | some v => some v
      | none => if k0 = k then some v0 else none := rfl

theorem oget_append (a b : Obj) (k : String) :
    oget (a ++ b) k =
      match oget b k with
      | some v => some v
      | none => oget a k := by
  induction a with
  | nil => cases h : oget b k <;> simp [h, oget]
  | cons p a ih =>
    obtain ⟨k0, v0⟩ := p
    show (match oget (a ++ b) k with
      | some v => some v
      | none => if k0 = k then some v0 else none) = _
    rw [ih]
    cases h : oget b k <;> rfl

theorem oget_filter_ne {l : Obj} {s k : String} (h : ¬ k = s) :
    oget (l.filter fun p => p.1 != s) k = oget l k := by
  induction l with
  | nil => rfl
  | cons p l ih =>
    obtain ⟨k0, v0⟩ := p
    by_cases h0 : k0 = s
    · subst h0
      simp only [List.filter_cons, bne_self_eq_false, Bool.false_eq_true, if_false]
      rw [ih, oget_cons]
      cases hl : oget l k
      · rw [if_neg fun e => h e.symm]
      · rfl
    · simp only [List.filter_cons, if_pos (show (k0 != s) = true by simpa using h0)]
      rw [oget_cons, ih, oget_cons]

/-- C3 counterexample: `makeNode` does not carry a caller-supplied
`toString` key through — `endNode` destructures it away and installs its
own source-text closure in its place. -/
theorem makeNode_tostring_cex :
    oget nodeBoom "toString" = some (Val.str "boom") ∧
    ((ctxX.makeNode nodeBoom "Identifier").bind fun n => oget n "toString") =
      some (Val.closure [Val.pos posX, Val.pos posX]) ∧
    Val.closure [Val.pos posX, Val.pos posX] ≠ Val.str "boom" :=
  ⟨rfl, rfl, fun hcontra => Val.noConfusion hcontra⟩

/-- C3 (amended): the node returned by `makeNode(partial, T)` contains
every key of `partial` with the value given in `partial`, except the keys
`Type`, `range` and `toString`: `Type` is always exactly `T`, `range` is
the merged node's range with the end position appended, and `toString` is
replaced by the freshly computed source-text accessor. -/
theorem makeNode_merges_caller_fields (ctx : Context) (o : Obj) (T k : String) (n : Obj)
    (v : Val) (hmk : ctx.makeNode o T = some n) :
    (¬ k = "Type" → ¬ k = "range" → ¬ k = "toString" →
      oget o k = some v → oget n k = some v) ∧
    oget n "Type" = some (Val.str T) ∧
    (∃ vs, oget (ctx.startNode none ++ o) "range" = some (Val.arr vs) ∧
      oget n "range" = some (Val.arr (vs ++ [endStartVal ctx]))) := by
  unfold Context.makeNode Context.endNode at hmk
  split at hmk
  · rename_i vs heq
    injection hmk with hn
    subst hn
    refine ⟨?_, ?_, vs, heq, ?_⟩
    · intro hk1 hk2 hk3 hov
      have htn : oget [("Type", Val.str T), ("range", Val.arr (vs ++ [endStartVal ctx]))] k
          = none := by
        rw [oget_cons, oget_cons, oget_nil, if_neg fun e => hk2 e.symm,
          if_neg fun e => hk1 e.symm]
      rw [List.cons_append, oget_cons, oget_append, htn, oget_filter_ne hk3, oget_append, hov]
    · have htail : oget [("Type", Val.str T),
          ("range", Val.arr (vs ++ [endStartVal ctx]))] "Type" = some (Val.str T) := rfl
      rw [List.cons_append, oget_cons, oget_append, htail]
    · have htail : oget [("Type", Val.str T),
          ("range", Val.arr (vs ++ [endStartVal ctx]))] "range"
          = some (Val.arr (vs ++ [endStartVal ctx])) := rfl
      rw [List.cons_append, oget_cons, oget_append, htail]
  · exact absurd hmk (by simp)

/-- Witness for C3 at a concrete input: a caller-supplied `meta` object
survives `makeNode`, while `Type` and `range` are stamped. -/
theorem makeNode_merges_caller_fields_witness :
    oget [("meta", Val.obj [("mine", Val.str "yes")])] "meta"
        = some (Val.obj [("mine", Val.str "yes")]) ∧
    (∃ n, ctxX.makeNode [("meta", Val.obj [("mine", Val.str "yes")])] "Identifier" = some n ∧
      oget n "meta" = some (Val.obj [("mine", Val.str "yes")]) ∧
      oget n "Type" = some (Val.str "Identifier")) := by
  refine ⟨rfl, _, rfl, ?_, ?_⟩
  · exact (makeNode_merges_caller_fields ctxX [("meta", Val.obj [("mine", Val.str "yes")])]
      "Identifier" "meta" _ (Val.obj [("mine", Val.str "yes")]) rfl).1
      (by decide) (by decide) (by decide) rfl
  · exact (makeNode_merges_caller_fields ctxX [("meta", Val.obj [("mine", Val.str "yes")])]
      "Identifier" "meta" _ (Val.obj [("mine", Val.str "yes")]) rfl).2.1

/-- C4 counterexample: the node builder enforces no chronological order —
starting a node from a seed token at column 4 and ending it while the
current token is at column 0 yields a finalized range whose start position
does not precede or equal its end position. -/
theorem range_order_cex :
    ((ctxLet.endNode (ctxLet.startNode (some tokX)) "Binary").bind fun n => oget n "range") =
      some (Val.arr [Val.pos posX, Val.pos posLet]) ∧
    ¬ posX.chronLE posLet :=
  ⟨rfl, by decide⟩

/-- C4 (amended): after `startNode` the range has exactly one entry;
finalizing a node obtained directly from `startNode` appends exactly one
end position, yielding exactly two entries, and its start precedes or
equals its end provided the finalizing token's position does not
chronologically precede the seed's start — the builder itself does not
enforce that ordering. -/
theorem range_invariant :
    (∀ (ctx : Context) (seedArg : Option Token),
      ∃ vs, oget (ctx.startNode seedArg) "range" = some (Val.arr vs) ∧ vs.length = 1) ∧
    (∀ (ctx : Context) (seed cur : Token) (T : String), ctx.token = some cur →
      seed.start.chronLE cur.start →
      ∃ n, ctx.endNode (ctx.startNode (some seed)) T = some n ∧
        oget n "range" = some (Val.arr [Val.pos seed.start, Val.pos cur.start]) ∧
        seed.start.chronLE cur.start) := by
  constructor
  · intro ctx seedArg
    unfold Context.startNode
    cases seedArg.orElse fun _ => ctx.token with
    | none => exact ⟨[Val.undef], rfl, rfl⟩
    | some t => exact ⟨[Val.pos t.start], rfl, rfl⟩
  · intro ctx seed cur T h hle
    rcases ctx with ⟨tok, st, fn, ls⟩
    change tok = some cur at h
    subst h
    exact ⟨_, rfl, rfl, hle⟩

/-- Witness for C4 at concrete inputs: seeding at `"let"` (column 0) and
ending at `"x"` (column 4) yields the two-entry, ordered range. -/
theorem range_invariant_witness :
    tokLet.start.chronLE tokX.start ∧
    (∃ n, ctxX.endNode (ctxX.startNode (some tokLet)) "VarDecl" = some n ∧
      oget n "range" = some (Val.arr [Val.pos tokLet.start, Val.pos tokX.start]) ∧
      tokLet.start.chronLE tokX.start) :=
  ⟨by decide, range_invariant.2 ctxX tokLet tokX "VarDecl" rfl (by decide)⟩

/-- C5: `startNode(seed)` opens a node from the supplied seed token if
given, else the current token, else the empty object (whose `value` and
`start` read as undefined); the node has `Type` the empty string, `value`
carried from the seed, `range` the one-entry sequence of the seed's start,
`meta` an empty mapping, `params` an empty sequence and `type` null. -/
theorem startNode_fields (ctx : Context) (seedArg : Option Token) :
    oget (ctx.startNode seedArg) "Type" = some (Val.str "") ∧
    oget (ctx.startNode seedArg) "meta" = some (Val.obj []) ∧
    oget (ctx.startNode seedArg) "params" = some (Val.arr []) ∧
    oget (ctx.startNode seedArg) "type" = some Val.null ∧
    (match seedArg.orElse fun _ => ctx.token with
     | some t =>
        oget (ctx.startNode seedArg) "value" = some (Val.str t.value) ∧
        oget (ctx.startNode seedArg) "range" = some (Val.arr [Val.pos t.start])
     | none =>
        oget (ctx.startNode seedArg) "value" = some Val.undef ∧
        oget (ctx.startNode seedArg) "range" = some (Val.arr [Val.undef])) := by
  unfold Context.startNode
  cases seedArg.orElse fun _ => ctx.token with
  | none => exact ⟨rfl, rfl, rfl, rfl, rfl, rfl⟩
  | some t => exact ⟨rfl, rfl, rfl, rfl, rfl, rfl⟩

/-- C6: with a current token, `startNode()` immediately followed by
`endNode(_, T)` with no intervening advance produces a node whose range
start equals its range end and whose `Type` is `T`. -/
theorem start_end_same_token (ctx : Context) (t : Token) (T : String)
    (h : ctx.token = some t) :
    ∃ n, ctx.endNode (ctx.startNode none) T = some n ∧
      oget n "range" = some (Val.arr [Val.pos t.start, Val.pos t.start]) ∧
      oget n "Type" = some (Val.str T) := by
  rcases ctx with ⟨tok, st, fn, ls⟩
  change tok = some t at h
  subst h
  exact ⟨_, rfl, rfl, rfl⟩

/-- Witness for C6 at a concrete input: starting and ending on the `"x"`
token gives the degenerate range. -/
theorem start_end_same_token_witness :
    ∃ n, ctxX.endNode (ctxX.startNode none) "Identifier" = some n ∧
      oget n "range" = some (Val.arr [Val.pos posX, Val.pos posX]) ∧
      oget n "Type" = some (Val.str "Identifier") :=
  start_end_same_token ctxX tokX "Identifier" rfl

/-- C8: `syntaxError(message, detail)` composes its diagnostic from the
message, the detail (empty string when absent), the current token, the
filename with fallback `"unknown"`, and the fixed function identifier
`"unknown"`; concretely, with current token `+`/`Operator`,
`expect(["let"])` raises an unexpected-value error whose message contains
`"Expected: let"`. -/
theorem syntaxError_composition :
    (∀ (ctx : Context) (msg : String) (err : Option String),
      ctx.syntaxError msg err =
        ⟨generateErrorString msg (jsOrS err "") ctx.token
          (jsOrS ctx.filename "unknown") "unknown"⟩) ∧
    (ctxPlus.expect (some ["let"]) none).1 =
      Except.error (JsErr.syn (ctxPlus.unexpectedValue ["let"])) ∧
    (∃ pre post, (ctxPlus.unexpectedValue ["let"]).message = pre ++ "Expected: let" ++ post) :=
  ⟨fun _ _ _ => rfl, rfl, "", " Unexpected value at 0:0 in unknown:unknown", rfl⟩

/-- C10: `endNode` never mutates its input — in the store-instrumented
model, every array present before the call (the base node's range array in
particular) is unchanged afterwards, and the returned node's range is a
freshly allocated array (a reference distinct from the base's) holding the
base range with the end position appended. -/
theorem endNode_no_mutation (ctx : Context) (s : ArrStore) (bf : Obj) (br : Nat) (T : String)
    (h : br < s.length) :
    (∀ r, r < s.length → getArr ((ctx.endNodeAlloc s bf br T).2) r = getArr s r) ∧
    (ctx.endNodeAlloc s bf br T).1.2 ≠ br ∧
    getArr ((ctx.endNodeAlloc s bf br T).2) ((ctx.endNodeAlloc s bf br T).1.2) =
      getArr s br ++ [endStartVal ctx] := by
  refine ⟨?_, ?_, ?_⟩
  · intro r hr
    show getArr (s ++ [getArr s br ++ [endStartVal ctx]]) r = getArr s r
    unfold getArr
    simp [List.getElem?_append_left hr]
  · exact Nat.ne_of_gt h
  · show getArr (s ++ [getArr s br ++ [endStartVal ctx]]) s.length
      = getArr s br ++ [endStartVal ctx]
    unfold getArr
    simp [List.getElem?_concat_length]

/-- Witness for C10 at a concrete input: the base range array at reference
0 is untouched and the fresh reference differs from it. -/
theorem endNode_no_mutation_witness :
    getArr ((ctxX.endNodeAlloc store1 [] 0 "T").2) 0 = getArr store1 0 ∧
    (ctxX.endNodeAlloc store1 [] 0 "T").1.2 ≠ 0 :=
  ⟨(endNode_no_mutation ctxX store1 [] 0 "T" (by decide)).1 0 (by decide),
   (endNode_no_mutation ctxX store1 [] 0 "T" (by decide)).2.1⟩

end Walt
